import Mathlib

/-!
Shallow embedding of the signal/risk pipeline of the Backtest_platform
repository, together with proofs of the specification's claims about it.

Conventions of the embedding:
* Timestamps are natural numbers counting minutes; a calendar day is 1440
  minutes, so the day of a timestamp is `t / 1440` and pandas' daily
  resampling buckets a bar at `t` into day `t / 1440`.
* Machine floats are modelled as rationals.  Where the Python code relies on
  IEEE special values (NaN from a missing lookup, `inf` from division by
  zero) the embedding makes that case an explicit `Option`/`if` branch whose
  result is the value pandas produces.
* DataFrames become lists (row order = time order, as the sources require
  sorted, duplicate-free input); a column of a frame becomes a list of the
  same length; `NaN` cells become `none`.
-/

namespace Backtest

/-- One OHLCV bar: timestamp (minutes), open, high, low, close, volume.
`open` is a Lean keyword, hence the field name `open_`. -/
structure Bar where
  ts : Nat
  open_ : ℚ
  high : ℚ
  low : ℚ
  close : ℚ
  volume : ℚ
deriving DecidableEq

/-! ### Session time filter (`src/strategies/trade_management/time_manager.py`) -/

/-- Configuration block `time_filter` consumed by `TimeManager.__init__`. -/
structure TimeFilterConfig where
  enabled : Bool
  session_start_hour : Nat
  session_start_minute : Nat
  session_end_hour : Nat
  session_end_minute : Nat
deriving DecidableEq

/-- The state `TimeManager.__init__` leaves behind: the enabled flag and the
session boundaries converted to minutes since midnight. -/
structure TimeManager where
  enabled : Bool
  session_start_minutes : Nat
  session_end_minutes : Nat
deriving DecidableEq

/-- `TimeManager.__init__` (time_manager.py lines 19-47).  The result type is
`Except String TimeManager` so that "construction fails" is expressible; the
source validates `session_start_minutes >= session_end_minutes` but only
emits `logger.warning` and carries on, so every branch returns `ok`. -/
def TimeManager.make (cfg : TimeFilterConfig) : Except String TimeManager :=
  let startM := cfg.session_start_hour * 60 + cfg.session_start_minute
  let endM := cfg.session_end_hour * 60 + cfg.session_end_minute
  -- source lines 41-43: an inverted window is logged as a warning, nothing is raised
  Except.ok { enabled := cfg.enabled
              session_start_minutes := startM
              session_end_minutes := endM }

/-- `TimeManager.is_in_trading_hours`: window test on the wall-clock
hour/minute of the timestamp (`t % 1440` = minutes since midnight);
start inclusive, end exclusive; disabled filter allows everything. -/
def TimeManager.is_in_trading_hours (tm : TimeManager) (t : Nat) : Bool :=
  if !tm.enabled then true
  else decide (tm.session_start_minutes ≤ t % 1440 ∧ t % 1440 < tm.session_end_minutes)

/-- A row of the signals frame handed to `filter_signals_by_time`:
a timestamp plus the signal payload (direction flag). -/
structure SignalRow where
  ts : Nat
  isBuy : Bool
deriving DecidableEq

/-- `TimeManager.filter_signals_by_time` (time_manager.py lines 76-116):
empty frame returned as is; when enabled, keep exactly the rows whose
timestamp passes `is_in_trading_hours`; when disabled, return the frame
unchanged. -/
def TimeManager.filter_signals_by_time (tm : TimeManager) (rows : List SignalRow) :
    List SignalRow :=
  if rows.isEmpty then rows
  else if tm.enabled then rows.filter (fun r => tm.is_in_trading_hours r.ts)
  else rows

/-! ### Theorems: claims C6 and C9 -/

/-- C6 counterexample: constructing the time manager with the filter enabled
and session start 20:30 strictly after session end 08:30 succeeds (the
source only logs a warning); construction does not fail with a
configuration error. -/
theorem timeManager_inverted_window_constructs :
    (TimeManager.make ⟨true, 20, 30, 8, 30⟩).isOk = true := rfl

/-- C6 (amended): constructing the time manager never fails, for any
configuration — in particular with the filter enabled and session start ≥
session end the manager is still built (the source only logs a warning about
the inverted window). -/
theorem timeManager_make_never_fails (cfg : TimeFilterConfig) :
    (TimeManager.make cfg).isOk = true := rfl

/-- C9: the time filter is idempotent — filtering an already-filtered
signals frame returns it unchanged. -/
theorem filter_signals_by_time_idempotent (tm : TimeManager) (rows : List SignalRow) :
    tm.filter_signals_by_time (tm.filter_signals_by_time rows) =
      tm.filter_signals_by_time rows := by
  unfold TimeManager.filter_signals_by_time
  by_cases hrows : rows.isEmpty
  · simp [hrows]
  · by_cases hen : tm.enabled
    · simp only [hrows, hen, if_false, if_true, Bool.false_eq_true]
      by_cases hres : (rows.filter (fun r => tm.is_in_trading_hours r.ts)).isEmpty
      · simp [hres]
      · simp [hres, List.filter_filter]
    · simp [hrows, hen]

/-! ### Candle classifier (`src/indicators/wbws_trigger.py`, `classify_candle`) -/

/-- The high/low cells of a bar as the classifier sees them (`pd.isna`
checks allow missing cells, modelled as `none`). -/
structure BarHL where
  high : Option ℚ
  low : Option ℚ
deriving DecidableEq

/-- `WBWSTrigger.classify_candle` (wbws_trigger.py lines 106-135): returns
`some 1` (inside), `some 3` (outside), `some 2` (2u / directional up),
`some (-2)` (2d / directional down) or `none`, testing the branches in the
source's order; any missing high/low yields `none`. -/
def classify_candle (current_bar previous_bar : BarHL) : Option Int :=
  match previous_bar.high, previous_bar.low, current_bar.high, current_bar.low with
  | some ph, some pl, some ch, some cl =>
    if ch ≤ ph ∧ pl ≤ cl then some 1
    else if ph < ch ∧ cl < pl then some 3
    else if ph < ch ∧ pl ≤ cl then some 2
    else if cl < pl ∧ ch ≤ ph then some (-2)
    else none
  | _, _, _, _ => none

/-- C2: with any of the four high/low values missing the classifier returns
`none`; on complete data the first matching rule wins in the source's order,
which makes each label equivalent to its own guard (inside ↔ `h ≤ h' ∧
l ≥ l'`, outside ↔ `h > h' ∧ l < l'`, 2u ↔ `h > h' ∧ l ≥ l'`,
2d ↔ `l < l' ∧ h ≤ h'`); in particular equal highs and equal lows are
classified inside. -/
theorem classify_candle_spec :
    (∀ ph pl ch cl : Option ℚ, ph = none ∨ pl = none ∨ ch = none ∨ cl = none →
      classify_candle ⟨ch, cl⟩ ⟨ph, pl⟩ = none) ∧
    (∀ ph pl ch cl : ℚ,
      (classify_candle ⟨some ch, some cl⟩ ⟨some ph, some pl⟩ = some 1 ↔ ch ≤ ph ∧ pl ≤ cl) ∧
      (classify_candle ⟨some ch, some cl⟩ ⟨some ph, some pl⟩ = some 3 ↔ ph < ch ∧ cl < pl) ∧
      (classify_candle ⟨some ch, some cl⟩ ⟨some ph, some pl⟩ = some 2 ↔ ph < ch ∧ pl ≤ cl) ∧
      (classify_candle ⟨some ch, some cl⟩ ⟨some ph, some pl⟩ = some (-2) ↔ cl < pl ∧ ch ≤ ph) ∧
      classify_candle ⟨some ph, some pl⟩ ⟨some ph, some pl⟩ = some 1) := by
  constructor
  · rintro ph pl ch cl h
    rcases ph with _ | ph <;> rcases pl with _ | pl <;>
      rcases ch with _ | ch <;> rcases cl with _ | cl <;>
      simp_all [classify_candle]
  · intro ph pl ch cl
    refine ⟨?_, ?_, ?_, ?_, ?_⟩ <;>
      simp only [classify_candle] <;> split_ifs with h1 h2 h3 h4 <;> simp_all

/-- C2 witness: the theorem applied at concrete inputs — a missing previous
high classifies as `none`, and the boundary bar equal to its predecessor
classifies inside (`some 1`). -/
theorem classify_candle_spec_witness :
    classify_candle ⟨some 1, some 1⟩ ⟨none, some 1⟩ = none ∧
    classify_candle ⟨some 5, some 3⟩ ⟨some 5, some 3⟩ = some 1 :=
  ⟨classify_candle_spec.1 none (some 1) (some 1) (some 1) (Or.inl rfl),
   (classify_candle_spec.2 5 3 5 3).2.2.2.2⟩

/-! ### Risk engine (`src/strategies/trade_management/risk_manager.py`) -/

/-- Configuration block `sl_tp` of the risk manager. -/
structure SlTpConfig where
  enabled : Bool
  sl_multiplier : ℚ
  risk_to_reward_ratio : ℚ
deriving DecidableEq

/-- Configuration block `risk_management` of the risk manager. -/
structure RiskMgmtConfig where
  enabled : Bool
  max_risk_percentile : ℚ
  allow_exceed_limit : Bool
deriving DecidableEq

/-- `RiskManager.calculate_sl_tp` (risk_manager.py lines 101-155).
`atr_at` is the ATR series lookup at the requested timestamp: `none` models
both a `KeyError` (timestamp absent) and a NaN cell; `manual_atr` is the
optional override.  The pair `(stop_loss, take_profit)` is returned as one
`Option` since the source returns either `(None, None)` or two floats. -/
def calculate_sl_tp (cfg : SlTpConfig) (atr_at manual_atr : Option ℚ)
    (entry_price : ℚ) (is_long : Bool) : Option (ℚ × ℚ) :=
  if !cfg.enabled then none
  else
    match (match manual_atr with
           | some a => some a
           | none => atr_at) with
    | none => none  -- lookup failed, or neither timestamp nor manual ATR given
    | some atr_val =>
      if atr_val ≤ 0 then none  -- non-positive (or NaN) ATR
      else
        let sl_distance := atr_val * cfg.sl_multiplier
        let tp_distance := sl_distance * cfg.risk_to_reward_ratio
        if is_long then some (entry_price - sl_distance, entry_price + tp_distance)
        else some (entry_price + sl_distance, entry_price - tp_distance)

/-- `RiskManager.validate_risk_percentile` (risk_manager.py lines 157-208).
`current_annual_range` is the rolling-annual-range lookup at the timestamp
(`none` models a missing series, a `KeyError` and a NaN cell alike).
Returns the approval flag together with the (possibly adjusted) stop loss;
the source's third component is only a log comment. -/
def validate_risk_percentile (cfg : RiskMgmtConfig) (current_annual_range : Option ℚ)
    (entry_price stop_loss : ℚ) (is_long : Bool) : Bool × Option ℚ :=
  if !cfg.enabled then (true, some stop_loss)
  else
    match current_annual_range with
    | none => (true, some stop_loss)
    | some r =>
      if r ≤ 0 then (true, some stop_loss)
      else
        let risk_distance := |entry_price - stop_loss|
        let risk_percentile := risk_distance / r
        if 1 ≤ cfg.max_risk_percentile ∨ risk_percentile ≤ cfg.max_risk_percentile then
          (true, some stop_loss)
        else if cfg.allow_exceed_limit then
          let adjusted_distance := cfg.max_risk_percentile * r
          (true, some (if is_long then entry_price - adjusted_distance
                       else entry_price + adjusted_distance))
        else (false, none)

/-- The caller's take-profit re-derivation after a stop adjustment
(`scripts/run_wbws_strategy.py` lines 193-204): the new stop distance is
taken from the adjusted stop and the target is rebuilt from it with the
configured risk:reward ratio. -/
def recompute_tp_after_adjustment (rr_ratio entry_price stop_loss : ℚ)
    (is_long : Bool) : ℚ :=
  let sl_distance := |entry_price - stop_loss|
  let tp_distance := sl_distance * rr_ratio
  if is_long then entry_price + tp_distance else entry_price - tp_distance

/-! ### Theorems: claims C4 and C3 -/

/-- C4: `calculate_sl_tp` returns no result when disabled by configuration,
when the ATR lookup fails, or when the ATR is non-positive; otherwise the
stop distance is `ATR × sl_multiplier`, the target distance is the stop
distance times the risk:reward ratio, subtracted/added around the entry
according to direction. -/
theorem calculate_sl_tp_spec (cfg : SlTpConfig) (entry : ℚ) (is_long : Bool) :
    (∀ atr_at manual_atr, cfg.enabled = false →
      calculate_sl_tp cfg atr_at manual_atr entry is_long = none) ∧
    (cfg.enabled = true →
      calculate_sl_tp cfg none none entry is_long = none) ∧
    (∀ a : ℚ, cfg.enabled = true → a ≤ 0 →
      calculate_sl_tp cfg (some a) none entry is_long = none) ∧
    (∀ a : ℚ, cfg.enabled = true → 0 < a →
      calculate_sl_tp cfg (some a) none entry is_long =
        some (if is_long
              then (entry - a * cfg.sl_multiplier,
                    entry + a * cfg.sl_multiplier * cfg.risk_to_reward_ratio)
              else (entry + a * cfg.sl_multiplier,
                    entry - a * cfg.sl_multiplier * cfg.risk_to_reward_ratio))) := by
  refine ⟨?_, ?_, ?_, ?_⟩
  · intro atr_at manual_atr hd
    simp [calculate_sl_tp, hd]
  · intro he
    simp [calculate_sl_tp, he]
  · intro a he ha
    simp [calculate_sl_tp, he, ha]
  · intro a he ha
    simp [calculate_sl_tp, he, not_le.mpr ha, le_of_lt ha]
    split_ifs <;> simp [mul_assoc]

/-- C4 witness: the spec's scenario C — ATR 45, multiplier 1.4, R:R 2.0,
entry 18250, long yields stop 18187.0 and target 18376.0. -/
theorem calculate_sl_tp_spec_witness :
    calculate_sl_tp ⟨true, 14/10, 2⟩ (some 45) none 18250 true =
      some (18187, 18376) := by
  have h := (calculate_sl_tp_spec ⟨true, 14/10, 2⟩ 18250 true).2.2.2 45 rfl (by norm_num)
  rw [h]
  norm_num

/-- C3: with risk capping enabled, a positive annual range `r` at the
timestamp, a configured cap `max_risk_percentile < 1` that the proposed
stop's risk fraction exceeds, and `allow_exceed_limit` set, the signal is
approved with the stop replaced by one whose distance from entry is exactly
`max_risk_percentile × r`, placed on the stop side of the entry (long stop
≤ entry, short stop ≥ entry), and the caller then re-derives the take
profit from the new stop distance with the same risk:reward ratio. -/
theorem validate_risk_percentile_adjusts (cfg : RiskMgmtConfig) (r entry stop rr : ℚ)
    (is_long : Bool)
    (hen : cfg.enabled = true)
    (hr : 0 < r)
    (hmax0 : 0 ≤ cfg.max_risk_percentile)
    (hmax1 : cfg.max_risk_percentile < 1)
    (hexceed : cfg.max_risk_percentile < |entry - stop| / r)
    (hallow : cfg.allow_exceed_limit = true) :
    ∃ adj,
      validate_risk_percentile cfg (some r) entry stop is_long = (true, some adj) ∧
      |entry - adj| = cfg.max_risk_percentile * r ∧
      (is_long = true → adj ≤ entry) ∧
      (is_long = false → entry ≤ adj) ∧
      recompute_tp_after_adjustment rr entry adj is_long =
        (if is_long then entry + cfg.max_risk_percentile * r * rr
         else entry - cfg.max_risk_percentile * r * rr) := by
  have hd : 0 ≤ cfg.max_risk_percentile * r := mul_nonneg hmax0 (le_of_lt hr)
  refine ⟨if is_long then entry - cfg.max_risk_percentile * r
          else entry + cfg.max_risk_percentile * r, ?_, ?_, ?_, ?_, ?_⟩
  · simp only [validate_risk_percentile, hen, Bool.not_true, Bool.false_eq_true,
      if_false, not_le.mpr hr, not_lt.mpr hexceed.le]
    rw [if_neg, if_pos hallow]
    push_neg
    exact ⟨hmax1, hexceed⟩
  · rcases is_long with _ | _ <;> simp [abs_of_nonneg, abs_of_nonpos, hd,
      sub_sub_cancel, neg_sub]
  · intro h; simp only [h, if_true]; linarith
  · intro h; simp only [h, Bool.false_eq_true, if_false]; linarith
  · rcases is_long with _ | _ <;>
      simp [recompute_tp_after_adjustment, sub_sub_cancel, abs_of_nonneg hd,
        add_sub_cancel_left]

/-- C3 witness: the spec's scenario D — annual range 2000, cap 2%,
allow-exceed, entry 18250, proposed stop 17250 (risk fraction 0.5), long:
approved with adjusted stop at distance 40 below entry, target re-derived
from the 40-point stop with R:R 2. -/
theorem validate_risk_percentile_adjusts_witness :
    ∃ adj,
      validate_risk_percentile ⟨true, 2/100, true⟩ (some 2000) 18250 17250 true =
        (true, some adj) ∧
      |18250 - adj| = (2/100 : ℚ) * 2000 ∧
      (true = true → adj ≤ 18250) ∧
      (true = false → (18250 : ℚ) ≤ adj) ∧
      recompute_tp_after_adjustment 2 18250 adj true =
        (if true then 18250 + (2/100 : ℚ) * 2000 * 2
         else 18250 - (2/100 : ℚ) * 2000 * 2) :=
  validate_risk_percentile_adjusts ⟨true, 2/100, true⟩ 2000 18250 17250 2 true
    rfl (by norm_num) (by norm_num) (by norm_num) (by norm_num) rfl

/-! ### RSI momentum filter (`src/strategies/filters/rsi_filter.py`) -/

/-- Wilder smoothing: `ewm(alpha=1/L, adjust=False).mean()` — the recursion
`y_0 = x_0`, `y_i = (1 - 1/L) * y_{i-1} + (1/L) * x_i` over the whole
column. -/
def ewmWilder (L : Nat) : List ℚ → List ℚ
  | [] => []
  | x :: rest => List.scanl (fun y v => (1 - 1/(L:ℚ)) * y + (1/(L:ℚ)) * v) x rest

/-- `series.diff()`: first cell NaN (`none`), then successive differences. -/
def diffs : List ℚ → List (Option ℚ)
  | [] => []
  | x :: rest => none :: List.zipWith (fun a b => some (b - a)) (x :: rest) rest

/-- `delta.where(delta > 0, 0.0)`: a positive delta survives, anything else
(including the leading NaN, which compares false) becomes `0`. -/
def gains (xs : List ℚ) : List ℚ :=
  (diffs xs).map fun d =>
    match d with
    | some v => if 0 < v then v else 0
    | none => 0

/-- `-delta.where(delta < 0, 0.0)`: magnitudes of the negative deltas. -/
def losses (xs : List ℚ) : List ℚ :=
  (diffs xs).map fun d =>
    match d with
    | some v => if v < 0 then -v else 0
    | none => 0

/-- `min_periods=L` masking of an `ewm` column: the first `L-1` cells are
NaN, the recursion's value shows from cell `L-1` on. -/
def maskWarmup (L : Nat) (ys : List ℚ) : List (Option ℚ) :=
  (List.range ys.length).map fun i => if i + 1 < L then none else ys[i]?

/-- `gain.ewm(alpha=1/L, min_periods=L, adjust=False).mean()`. -/
def avgGain (L : Nat) (closes : List ℚ) : List (Option ℚ) :=
  maskWarmup L (ewmWilder L (gains closes))

/-- `loss.ewm(alpha=1/L, min_periods=L, adjust=False).mean()`. -/
def avgLoss (L : Nat) (closes : List ℚ) : List (Option ℚ) :=
  maskWarmup L (ewmWilder L (losses closes))

/-- One cell of `rsi = 100 - 100/(1 + avg_gain/avg_loss)` under pandas float
semantics: a masked operand gives NaN; `avg_loss = 0` with positive
`avg_gain` gives `rs = +inf`, hence RSI `100`; `0/0` gives NaN. -/
def rsiCell (gainCell lossCell : Option ℚ) : Option ℚ :=
  match gainCell, lossCell with
  | some g, some l =>
    if l = 0 then (if g = 0 then none else some 100)
    else some (100 - 100 / (1 + g / l))
  | _, _ => none

/-- The RSI column of `RSIFilter._calculate_rsi_wilder` before `fillna`. -/
def rsiRaw (L : Nat) (closes : List ℚ) : List (Option ℚ) :=
  List.zipWith rsiCell (avgGain L closes) (avgLoss L closes)

/-- `RSIFilter._calculate_rsi_wilder` (rsi_filter.py lines 23-44): the final
column after `rsi.fillna(100 if len(loss) > 0 else 50)`. -/
def rsiWilder (L : Nat) (closes : List ℚ) : List ℚ :=
  (rsiRaw L closes).map fun r => r.getD (if 0 < closes.length then 100 else 50)

/-- Configuration of `RSIFilter.__init__`. -/
structure RSIFilterCfg where
  length : Nat
  overbought : ℚ
  oversold : ℚ
  enabled : Bool
deriving DecidableEq

/-- `RSIFilter.apply_filter` (rsi_filter.py lines 46-75): when disabled,
everything passes; otherwise longs pass where `rsi < overbought` and shorts
where `rsi > oversold`. -/
def apply_filter (f : RSIFilterCfg) (closes : List ℚ) (is_long : Bool) : List Bool :=
  if !f.enabled then List.replicate closes.length true
  else (rsiWilder f.length closes).map fun r =>
    if is_long then decide (r < f.overbought) else decide (f.oversold < r)

/-! Supporting lemmas for the RSI claims. -/

lemma ewm_step_nonneg (L : Nat) (hL : 1 ≤ L) {y v : ℚ} (hy : 0 ≤ y) (hv : 0 ≤ v) :
    0 ≤ (1 - 1/(L:ℚ)) * y + (1/(L:ℚ)) * v := by
  have hL' : (1:ℚ) ≤ L := by exact_mod_cast hL
  have hLpos : (0:ℚ) < L := by linarith
  have hle : (1:ℚ)/L ≤ 1 := by rw [div_le_one hLpos]; exact hL'
  have hco : (0:ℚ) ≤ 1 - 1/(L:ℚ) := by linarith
  have hα : (0:ℚ) ≤ 1/(L:ℚ) := by positivity
  exact add_nonneg (mul_nonneg hco hy) (mul_nonneg hα hv)

lemma scanl_ewm_nonneg (L : Nat) (hL : 1 ≤ L) (rest : List ℚ) :
    ∀ (a : ℚ), 0 ≤ a → (∀ x ∈ rest, 0 ≤ x) →
      ∀ y ∈ List.scanl (fun y v => (1 - 1/(L:ℚ)) * y + (1/(L:ℚ)) * v) a rest, 0 ≤ y := by
  induction rest with
  | nil =>
    intro a ha _ y hy
    simp only [List.scanl, List.mem_singleton] at hy
    exact hy ▸ ha
  | cons x rest ih =>
    intro a ha hrest y hy
    simp only [List.scanl, List.mem_cons] at hy
    rcases hy with rfl | hy
    · exact ha
    · exact ih _ (ewm_step_nonneg L hL ha (hrest x (List.mem_cons_self x rest)))
        (fun z hz => hrest z (List.mem_cons_of_mem x hz)) y hy

lemma ewmWilder_nonneg (L : Nat) (hL : 1 ≤ L) (xs : List ℚ)
    (hxs : ∀ x ∈ xs, 0 ≤ x) : ∀ y ∈ ewmWilder L xs, 0 ≤ y := by
  cases xs with
  | nil => intro y hy; simp [ewmWilder] at hy
  | cons x rest =>
    intro y hy
    exact scanl_ewm_nonneg L hL rest x (hxs x (List.mem_cons_self x rest))
      (fun z hz => hxs z (List.mem_cons_of_mem x hz)) y hy

lemma gains_nonneg (xs : List ℚ) : ∀ g ∈ gains xs, 0 ≤ g := by
  intro g hg
  simp only [gains, List.mem_map] at hg
  obtain ⟨d, _, rfl⟩ := hg
  rcases d with _ | v
  · exact le_refl 0
  · dsimp only
    split_ifs with h
    · exact le_of_lt h
    · exact le_refl 0

lemma losses_nonneg (xs : List ℚ) : ∀ l ∈ losses xs, 0 ≤ l := by
  intro l hl
  simp only [losses, List.mem_map] at hl
  obtain ⟨d, _, rfl⟩ := hl
  rcases d with _ | v
  · exact le_refl 0
  · dsimp only
    split_ifs with h
    · linarith
    · exact le_refl 0

lemma maskWarmup_getElem (L : Nat) (ys : List ℚ) (i : Nat) (h : i < ys.length) :
    (maskWarmup L ys)[i]? = some (if i + 1 < L then none else ys[i]?) := by
  simp [maskWarmup, List.getElem?_map, List.getElem?_range, h]

lemma maskWarmup_some (L : Nat) (ys : List ℚ) (i : Nat) (v : Option ℚ)
    (h : (maskWarmup L ys)[i]? = some v) :
    i < ys.length ∧ v = (if i + 1 < L then none else ys[i]?) := by
  by_cases hi : i < ys.length
  · rw [maskWarmup_getElem L ys i hi] at h
    exact ⟨hi, (Option.some_inj.mp h).symm⟩
  · exfalso
    have hlen : (maskWarmup L ys).length = ys.length := by
      simp [maskWarmup]
    rw [List.getElem?_eq_none (by omega)] at h
    exact Option.noConfusion h

lemma length_ewmWilder (L : Nat) (xs : List ℚ) :
    (ewmWilder L xs).length = xs.length := by
  cases xs with
  | nil => rfl
  | cons x rest => simp [ewmWilder, List.length_scanl]

lemma length_diffs (xs : List ℚ) : (diffs xs).length = xs.length := by
  cases xs with
  | nil => rfl
  | cons x rest => simp [diffs]

lemma length_gains (xs : List ℚ) : (gains xs).length = xs.length := by
  simp [gains, length_diffs]

lemma length_losses (xs : List ℚ) : (losses xs).length = xs.length := by
  simp [losses, length_diffs]

lemma rsiCell_bounds (g l : ℚ) (hg : 0 ≤ g) (hl : 0 ≤ l) (r : ℚ)
    (h : rsiCell (some g) (some l) = some r) : 0 ≤ r ∧ r ≤ 100 := by
  by_cases h0 : l = 0
  · subst h0
    by_cases hg0 : g = 0
    · simp [rsiCell, hg0] at h
    · simp [rsiCell, hg0] at h
      subst h
      norm_num
  · simp only [rsiCell, if_neg h0, Option.some_inj] at h
    subst h
    have hlpos : 0 < l := lt_of_le_of_ne hl (Ne.symm h0)
    have hq : 0 ≤ g / l := div_nonneg hg hl
    have h1 : (0:ℚ) < 1 + g / l := by linarith
    have hub : 100 / (1 + g / l) ≤ 100 := div_le_self (by norm_num) (by linarith)
    have hlb : 0 < 100 / (1 + g / l) := div_pos (by norm_num) h1
    constructor <;> linarith

/-! ### Theorems: claims C7 and C10 -/

/-- C7: for any smoothing length `L ≥ 1` and close series, every cell of
the Wilder-RSI column lies in `[0, 100]`, and wherever the smoothed average
loss is defined and exactly zero the RSI cell is exactly `100`. -/
theorem rsi_range_and_zero_loss (L : Nat) (hL : 1 ≤ L) (closes : List ℚ) :
    (∀ (i : ℕ) (r : ℚ), (rsiWilder L closes)[i]? = some r → 0 ≤ r ∧ r ≤ 100) ∧
    (∀ i : ℕ, (avgLoss L closes)[i]? = some (some 0) →
      (rsiWilder L closes)[i]? = some 100) := by
  constructor
  · intro i r hr
    simp only [rsiWilder, List.getElem?_map] at hr
    rcases hraw : (rsiRaw L closes)[i]? with _ | c
    · rw [hraw] at hr; exact Option.noConfusion hr
    · rw [hraw, Option.map_some', Option.some_inj] at hr
      subst hr
      rcases c with _ | v
      · -- NaN cell: the fill value is 100 or 50, both within bounds
        dsimp only [Option.getD]
        split_ifs <;> norm_num
      · -- defined cell: comes from `rsiCell` on two nonnegative ewm values
        simp only [Option.getD]
        rw [rsiRaw, List.getElem?_zipWith_eq_some] at hraw
        obtain ⟨gc, lc, hgc, hlc, hcell⟩ := hraw
        rw [avgGain] at hgc
        rw [avgLoss] at hlc
        rcases gc with _ | g
        · rcases lc with _ | l <;> exact Option.noConfusion hcell
        · rcases lc with _ | l
          · exact Option.noConfusion hcell
          · obtain ⟨hgi, hge⟩ :=
              maskWarmup_some L (ewmWilder L (gains closes)) i _ hgc
            obtain ⟨hli, hle⟩ :=
              maskWarmup_some L (ewmWilder L (losses closes)) i _ hlc
            by_cases hwarm : i + 1 < L
            · rw [if_pos hwarm] at hge; exact Option.noConfusion hge
            · rw [if_neg hwarm] at hge hle
              have hgmem : g ∈ ewmWilder L (gains closes) :=
                List.getElem?_mem hge.symm
              have hlmem : l ∈ ewmWilder L (losses closes) :=
                List.getElem?_mem hle.symm
              have hg : 0 ≤ g :=
                ewmWilder_nonneg L hL _ (gains_nonneg closes) g hgmem
              have hl : 0 ≤ l :=
                ewmWilder_nonneg L hL _ (losses_nonneg closes) l hlmem
              exact rsiCell_bounds g l hg hl v hcell
  · intro i hzero
    have hzero' := hzero
    rw [avgLoss] at hzero'
    obtain ⟨hli, hle⟩ := maskWarmup_some L (ewmWilder L (losses closes)) i _ hzero'
    by_cases hwarm : i + 1 < L
    · rw [if_pos hwarm] at hle; exact Option.noConfusion hle
    · rw [if_neg hwarm] at hle
      -- the gain column is defined at `i` as well (same length, same mask)
      have hgi : i < (ewmWilder L (gains closes)).length := by
        rw [length_ewmWilder, length_gains]
        rw [length_ewmWilder, length_losses] at hli
        exact hli
      have hclen : 0 < closes.length := by
        rw [length_ewmWilder, length_losses] at hli
        omega
      obtain ⟨g, hge⟩ : ∃ g, (ewmWilder L (gains closes))[i]? = some g :=
        ⟨_, List.getElem?_eq_getElem hgi⟩
      have hraw : (rsiRaw L closes)[i]? =
          some (rsiCell (some g) (some 0)) := by
        rw [rsiRaw, List.getElem?_zipWith_eq_some]
        exact ⟨some g, some 0, by
          rw [avgGain, maskWarmup_getElem L _ i hgi, if_neg hwarm, hge], hzero, rfl⟩
      simp only [rsiWilder, List.getElem?_map, hraw, rsiCell, if_pos rfl]
      by_cases hg0 : g = 0
      · simp [hg0, hclen]
      · simp [hg0, hclen]

/-- C7 witness: with `L = 2` and closes `[1, 2]` the average loss at index 1
is defined and zero, the theorem yields RSI exactly 100 there, within
bounds. -/
theorem rsi_range_and_zero_loss_witness :
    (rsiWilder 2 [1, 2])[1]? = some 100 ∧ (0:ℚ) ≤ 100 ∧ (100:ℚ) ≤ 100 := by
  have h := rsi_range_and_zero_loss 2 (by norm_num) [1, 2]
  have hloss : (avgLoss 2 [1, 2])[1]? = some (some 0) := by
    norm_num [avgLoss, maskWarmup, ewmWilder, losses, diffs, List.scanl,
      List.range_succ]
  have h100 := h.2 1 hloss
  exact ⟨h100, (h.1 1 100 h100).1, (h.1 1 100 h100).2⟩

/-- C10: with the filter enabled, a warm-up index `i` (fewer than `length`
observations, i.e. `i + 1 < length`) inside the series has its RSI filled
with 100; consequently a long candidate is vetoed there whenever the
overbought threshold is ≤ 100, and a short candidate passes whenever the
oversold threshold is < 100. -/
theorem rsi_warmup_fill (f : RSIFilterCfg) (closes : List ℚ) (i : Nat)
    (hi : i + 1 < f.length) (hlen : i < closes.length)
    (hob : f.overbought ≤ 100) (hos : f.oversold < 100) (hen : f.enabled = true) :
    (rsiWilder f.length closes)[i]? = some 100 ∧
    (apply_filter f closes true)[i]? = some false ∧
    (apply_filter f closes false)[i]? = some true := by
  have hglen : i < (ewmWilder f.length (gains closes)).length := by
    rw [length_ewmWilder, length_gains]; exact hlen
  have hllen : i < (ewmWilder f.length (losses closes)).length := by
    rw [length_ewmWilder, length_losses]; exact hlen
  have hpos : 0 < closes.length := by omega
  have hraw : (rsiRaw f.length closes)[i]? = some none := by
    rw [rsiRaw, List.getElem?_zipWith_eq_some]
    exact ⟨none, none,
      by rw [avgGain, maskWarmup_getElem _ _ i hglen, if_pos hi],
      by rw [avgLoss, maskWarmup_getElem _ _ i hllen, if_pos hi],
      rfl⟩
  have hfill : (rsiWilder f.length closes)[i]? = some 100 := by
    simp [rsiWilder, List.getElem?_map, hraw, Option.getD, hpos]
  refine ⟨hfill, ?_, ?_⟩
  · simp only [apply_filter, hen, Bool.not_true, Bool.false_eq_true, if_false,
      List.getElem?_map, hfill, Option.map_some, if_true]
    simp [not_lt.mpr hob]
  · simp only [apply_filter, hen, Bool.not_true, Bool.false_eq_true, if_false,
      List.getElem?_map, hfill, Option.map_some]
    simp [hos]

/-- C10 witness: default configuration (length 14, 70/30, enabled), closes
`[1, 2, 3]`, index 0 — the warm-up RSI is 100, the long filter vetoes and
the short filter passes. -/
theorem rsi_warmup_fill_witness :
    (rsiWilder 14 [1, 2, 3])[0]? = some 100 ∧
    (apply_filter ⟨14, 70, 30, true⟩ [1, 2, 3] true)[0]? = some false ∧
    (apply_filter ⟨14, 70, 30, true⟩ [1, 2, 3] false)[0]? = some true :=
  rsi_warmup_fill ⟨14, 70, 30, true⟩ [1, 2, 3] 0 (by norm_num) (by norm_num)
    (by norm_num) (by norm_num) rfl

/-! ### HTF bias resolver (`wbws_trigger.py`, `prepare_htf_data`) -/

/-- Calendar-aligned resampling bucket of a timestamp for a period of `P`
minutes: pandas `resample` groups the bar at `t` into the bucket starting at
`(t / P) * P`. -/
def htfBucket (P t : Nat) : Nat := t / P

/-- The rows of the base frame falling into bucket `k`, in row order. -/
def bucketBars (P : Nat) (bars : List Bar) (k : Nat) : List Bar :=
  bars.filter (fun b => decide (htfBucket P b.ts = k))

/-- The index of the resampled frame after `.agg(...).dropna()`: exactly the
buckets holding at least one bar, sorted increasingly (a pandas index is
sorted and duplicate-free). -/
def bucketsPresent (P : Nat) (bars : List Bar) : List Nat :=
  List.insertionSort (· ≤ ·) (bars.map (fun b => htfBucket P b.ts)).dedup

/-- `agg({'open': 'first'})` of bucket `k`. -/
def htfOpen (P : Nat) (bars : List Bar) (k : Nat) : Option ℚ :=
  ((bucketBars P bars k).head?).map Bar.open_

/-- `agg({'close': 'last'})` of bucket `k`. -/
def htfClose (P : Nat) (bars : List Bar) (k : Nat) : Option ℚ :=
  ((bucketBars P bars k).getLast?).map Bar.close

/-- The `htf_bull` cell of the resampled frame: close and open both present
and `close > open`. -/
def htf_bull (P : Nat) (bars : List Bar) (k : Nat) : Bool :=
  match htfOpen P bars k, htfClose P bars k with
  | some o, some c => decide (o < c)
  | _, _ => false

/-- The `htf_bear` cell: close and open both present and `close < open`. -/
def htf_bear (P : Nat) (bars : List Bar) (k : Nat) : Bool :=
  match htfOpen P bars k, htfClose P bars k with
  | some o, some c => decide (c < o)
  | _, _ => false

/-- `df_htf['htf_bull'].reindex(df.index, method='ffill').fillna(False)`
evaluated at timestamp `t`: the flag of the last present bucket whose start
`k * P` is ≤ `t`, and `false` when no bucket starts at or before `t`. -/
def htf_bull_at (P : Nat) (bars : List Bar) (t : Nat) : Bool :=
  match ((bucketsPresent P bars).filter (fun k => decide (k * P ≤ t))).getLast? with
  | some k => htf_bull P bars k
  | none => false

/-- `ffill`+`fillna(False)` broadcast of the `htf_bear` column at `t`. -/
def htf_bear_at (P : Nat) (bars : List Bar) (t : Nat) : Bool :=
  match ((bucketsPresent P bars).filter (fun k => decide (k * P ≤ t))).getLast? with
  | some k => htf_bear P bars k
  | none => false

/-! Supporting lemmas: the forward-fill on a sorted bucket index picks the
timestamp's own bucket. -/

lemma sorted_filter_le_getLast (l : List Nat) (hs : l.Sorted (· < ·)) (d0 : Nat)
    (hmem : d0 ∈ l) (p : Nat → Bool) (hmono : ∀ k, p k = decide (k ≤ d0)) :
    (l.filter p).getLast? = some d0 := by
  obtain ⟨A, B, rfl⟩ := List.append_of_mem hmem
  have hs' : List.Pairwise (· < ·) (A ++ d0 :: B) := hs
  rw [List.pairwise_append] at hs'
  obtain ⟨hA, hdB, hcross⟩ := hs'
  rw [List.pairwise_cons] at hdB
  have hfA : A.filter p = A := by
    rw [List.filter_eq_self]
    intro a ha
    rw [hmono]
    exact decide_eq_true (le_of_lt (hcross a ha d0 (List.mem_cons_self d0 B)))
  have hfB : B.filter p = [] := by
    rw [List.filter_eq_nil_iff]
    intro b hb
    rw [hmono]
    simp only [decide_eq_true_eq]
    exact not_le.mpr (hdB.1 b hb)
  have hpd : p d0 = true := by rw [hmono]; exact decide_eq_true (le_refl d0)
  rw [List.filter_append, List.filter_cons_of_pos hpd, hfA, hfB]
  exact List.getLast?_concat A

lemma bucketsPresent_nodup (P : Nat) (bars : List Bar) :
    (bucketsPresent P bars).Nodup :=
  (List.perm_insertionSort _ _).nodup_iff.mpr (List.nodup_dedup _)

lemma bucketsPresent_sorted (P : Nat) (bars : List Bar) :
    (bucketsPresent P bars).Sorted (· < ·) :=
  (List.sorted_insertionSort _ _).lt_of_le (bucketsPresent_nodup P bars)

lemma mem_bucketsPresent (P : Nat) (bars : List Bar) (k : Nat) :
    k ∈ bucketsPresent P bars ↔ ∃ b ∈ bars, htfBucket P b.ts = k := by
  rw [bucketsPresent, (List.perm_insertionSort _ _).mem_iff, List.mem_dedup]
  simp [List.mem_map]

lemma ffill_picks_own_bucket (P : Nat) (hP : 0 < P) (bars : List Bar) (t : Nat)
    (hmem : htfBucket P t ∈ bucketsPresent P bars) :
    ((bucketsPresent P bars).filter (fun k => decide (k * P ≤ t))).getLast? =
      some (htfBucket P t) := by
  refine sorted_filter_le_getLast _ (bucketsPresent_sorted P bars) _ hmem _ ?_
  intro k
  have : (k * P ≤ t) = (k ≤ t / P) := by
    rw [eq_iff_iff]
    exact (Nat.le_div_iff_mul_le hP).symm
  simp [htfBucket, this]

/-! ### Theorem: claim C5 -/

/-- C5: every base bar receives the flags of its own (complete) bucket —
bullish exactly when the bucket's last close exceeds its first open, bearish
exactly when it is below (equality sets neither flag) — and any timestamp
preceding every resolved bucket gets `false` for both flags. -/
theorem htf_bias_spec (P : Nat) (hP : 0 < P) (bars : List Bar) :
    (∀ b ∈ bars, ∃ f l,
      (bucketBars P bars (htfBucket P b.ts)).head? = some f ∧
      (bucketBars P bars (htfBucket P b.ts)).getLast? = some l ∧
      htf_bull_at P bars b.ts = decide (f.open_ < l.close) ∧
      htf_bear_at P bars b.ts = decide (l.close < f.open_)) ∧
    (∀ t : Nat, (∀ k ∈ bucketsPresent P bars, t < k * P) →
      htf_bull_at P bars t = false ∧ htf_bear_at P bars t = false) := by
  constructor
  · intro b hb
    have hmem : htfBucket P b.ts ∈ bucketsPresent P bars :=
      (mem_bucketsPresent P bars _).mpr ⟨b, hb, rfl⟩
    have hbk : b ∈ bucketBars P bars (htfBucket P b.ts) :=
      List.mem_filter.mpr ⟨hb, decide_eq_true rfl⟩
    have hne : bucketBars P bars (htfBucket P b.ts) ≠ [] := List.ne_nil_of_mem hbk
    refine ⟨(bucketBars P bars (htfBucket P b.ts)).head hne,
            (bucketBars P bars (htfBucket P b.ts)).getLast hne,
            List.head?_eq_head hne, List.getLast?_eq_getLast _ hne, ?_, ?_⟩
    · rw [htf_bull_at, ffill_picks_own_bucket P hP bars b.ts hmem]
      simp only [htf_bull, htfOpen, htfClose, List.head?_eq_head hne,
        List.getLast?_eq_getLast _ hne, Option.map_some']
    · rw [htf_bear_at, ffill_picks_own_bucket P hP bars b.ts hmem]
      simp only [htf_bear, htfOpen, htfClose, List.head?_eq_head hne,
        List.getLast?_eq_getLast _ hne, Option.map_some']
  · intro t hbefore
    have hnil : (bucketsPresent P bars).filter (fun k => decide (k * P ≤ t)) = [] := by
      rw [List.filter_eq_nil_iff]
      intro k hk
      simp only [decide_eq_true_eq]
      exact not_le.mpr (hbefore k hk)
    constructor
    · simp [htf_bull_at, hnil]
    · simp [htf_bear_at, hnil]

/-- C5 witness: a three-bar frame inside one 60-minute bucket — each bar
carries the bucket's bullish flag (close 20 above open 10), and a timestamp
before every bucket gets both flags false (checked here on the bucket
produced by the theorem for the first bar). -/
theorem htf_bias_spec_witness :
    ∃ f l,
      (bucketBars 60 [⟨60, 10, 12, 10, 11, 1⟩, ⟨61, 10, 11, 9, 10, 1⟩,
                      ⟨62, 10, 13, 9, 20, 1⟩] (htfBucket 60 60)).head? = some f ∧
      (bucketBars 60 [⟨60, 10, 12, 10, 11, 1⟩, ⟨61, 10, 11, 9, 10, 1⟩,
                      ⟨62, 10, 13, 9, 20, 1⟩] (htfBucket 60 60)).getLast? = some l ∧
      htf_bull_at 60 [⟨60, 10, 12, 10, 11, 1⟩, ⟨61, 10, 11, 9, 10, 1⟩,
                      ⟨62, 10, 13, 9, 20, 1⟩] 60 = decide (f.open_ < l.close) ∧
      htf_bear_at 60 [⟨60, 10, 12, 10, 11, 1⟩, ⟨61, 10, 11, 9, 10, 1⟩,
                      ⟨62, 10, 13, 9, 20, 1⟩] 60 = decide (l.close < f.open_) :=
  (htf_bias_spec 60 (by norm_num)
      [⟨60, 10, 12, 10, 11, 1⟩, ⟨61, 10, 11, 9, 10, 1⟩, ⟨62, 10, 13, 9, 20, 1⟩]).1
    ⟨60, 10, 12, 10, 11, 1⟩ (List.mem_cons_self _ _)

/-! ### Trigger engine (`wbws_trigger.py`, `calculate_signals`) -/

/-- The high/low cells of a full bar (validated data, nothing missing). -/
def toHL (b : Bar) : BarHL := ⟨some b.high, some b.low⟩

/-- The `candle_type` column: NaN for the first row, then each bar
classified against its predecessor (wbws_trigger.py lines 166-174). -/
def candle_types (bars : List Bar) : List (Option Int) :=
  match bars with
  | [] => []
  | b :: rest =>
    none :: List.zipWith (fun prev cur => classify_candle (toHL cur) (toHL prev))
      (b :: rest) rest

/-- pandas `shift(1)` on a column: a NaN enters at the top, the last cell
falls off. -/
def shift1 (xs : List (Option Int)) : List (Option Int) := (none :: xs).take xs.length

/-- The `rev_2d_2u` / `rev_2u_2d` columns (lines 177-189): previous and
current candle type both non-NaN and equal to the two given codes. -/
def rev_series (ct : List (Option Int)) (prevCode curCode : Int) : List Bool :=
  List.zipWith
    (fun p c => p.isSome && c.isSome &&
      decide (p = some prevCode) && decide (c = some curCode))
    (shift1 ct) ct

/-- `calculate_signals` (lines 137-221), restricted to the two columns the
claim is about: `we_buy = rev_2d_2u & htf_bull` and
`we_sell = rev_2u_2d & htf_bear` per row. -/
def calculate_signals (P : Nat) (bars : List Bar) : List Bool × List Bool :=
  let ct := candle_types bars
  (List.zipWith (· && ·) (rev_series ct (-2) 2)
      (bars.map fun b => htf_bull_at P bars b.ts),
   List.zipWith (· && ·) (rev_series ct 2 (-2))
      (bars.map fun b => htf_bear_at P bars b.ts))

/-! ### Theorem: claim C8 -/

/-- C8: the raw `we_buy` and `we_sell` flags are never both true on the same
row — a buy row pins the candle type to `some 2` and a sell row to
`some (-2)`. -/
theorem signals_mutually_exclusive (P : Nat) (bars : List Bar) (i : ℕ)
    (h : (calculate_signals P bars).1[i]? = some true) :
    (calculate_signals P bars).2[i]? = some false := by
  simp only [calculate_signals] at h ⊢
  rw [List.getElem?_zipWith_eq_some] at h
  obtain ⟨x, y, hrev, hbull, hxy⟩ := h
  have hx : x = true := by
    cases x
    · simp at hxy
    · rfl
  subst hx
  rw [rev_series, List.getElem?_zipWith_eq_some] at hrev
  obtain ⟨p, c, hp, hc, hpc⟩ := hrev
  have hc2 : c = some 2 := by
    by_cases hcc : c = some 2
    · exact hcc
    · rw [decide_eq_false hcc, Bool.and_false] at hpc
      exact absurd hpc Bool.false_ne_true
  have hp2 : p = some (-2) := by
    by_cases hpp : p = some (-2)
    · exact hpp
    · rw [decide_eq_false hpp] at hpc
      simp at hpc
  -- the bear column is defined at `i` (same lengths), and its rev flag is
  -- false because the candle type is `some 2`, not `some (-2)`
  have hblen : i < (bars.map fun b => htf_bull_at P bars b.ts).length := by
    by_contra hlt
    rw [List.getElem?_eq_none (by omega)] at hbull
    exact Option.noConfusion hbull
  have hbear : ∃ z, (bars.map fun b => htf_bear_at P bars b.ts)[i]? = some z := by
    have : i < (bars.map fun b => htf_bear_at P bars b.ts).length := by
      rw [List.length_map] at hblen ⊢
      exact hblen
    exact ⟨_, List.getElem?_eq_getElem this⟩
  obtain ⟨z, hz⟩ := hbear
  have hrevfalse : (rev_series (candle_types bars) 2 (-2))[i]? = some false := by
    rw [rev_series, List.getElem?_zipWith']
    rw [hp, hc]
    simp only [Option.map_some', Option.bind_some]
    have : decide (c = some (-2)) = false := by
      rw [hc2]
      simp
    rw [hc2] at this ⊢
    simp
  rw [List.getElem?_zipWith', hrevfalse, hz]
  simp

/-- C8 witness: a concrete three-bar frame whose third row is a `we_buy`
signal (2d → 2u under a bullish bucket); the theorem forces `we_sell` false
on that row. -/
theorem signals_mutually_exclusive_witness :
    (calculate_signals 60 [⟨60, 10, 12, 10, 11, 1⟩, ⟨61, 10, 11, 9, 10, 1⟩,
                           ⟨62, 10, 13, 9, 20, 1⟩]).2[2]? = some false :=
  signals_mutually_exclusive 60
    [⟨60, 10, 12, 10, 11, 1⟩, ⟨61, 10, 11, 9, 10, 1⟩, ⟨62, 10, 13, 9, 20, 1⟩] 2
    (by decide)

/-! ### Rolling annual range (`risk_manager.py`,
`_calculate_rolling_annual_range`, lines 75-99) -/

/-- The calendar day of a timestamp: a day is the 1440-minute resampling
bucket, matching `resample('D')`. -/
def dayOf (t : Nat) : Nat := t / 1440

/-- The first minute of the calendar day containing `t`. -/
def startOfDay (t : Nat) : Nat := dayOf t * 1440

/-- `agg({'high': 'max'})` of day `d`; only consulted for days kept by
`.dropna()`, i.e. days with at least one bar, where `max?` is `some`. -/
def dailyHigh (bars : List Bar) (d : Nat) : ℚ :=
  (((bucketBars 1440 bars d).map Bar.high).max?).getD 0

/-- `agg({'low': 'min'})` of day `d`. -/
def dailyLow (bars : List Bar) (d : Nat) : ℚ :=
  (((bucketBars 1440 bars d).map Bar.low).min?).getD 0

/-- `series.rolling(window, min_periods).max()`: cell `i` looks at the
trailing `window` cells ending at `i`, NaN until `min_periods` observations
are inside the window. -/
def rollingMax (window minp : Nat) (xs : List ℚ) : List (Option ℚ) :=
  (List.range xs.length).map fun i =>
    let win := (xs.take (i + 1)).drop (i + 1 - window)
    if minp ≤ win.length then win.max? else none

/-- `series.rolling(window, min_periods).min()`. -/
def rollingMin (window minp : Nat) (xs : List ℚ) : List (Option ℚ) :=
  (List.range xs.length).map fun i =>
    let win := (xs.take (i + 1)).drop (i + 1 - window)
    if minp ≤ win.length then win.min? else none

/-- pandas `shift(1)` on a float column. -/
def shiftF (xs : List (Option ℚ)) : List (Option ℚ) := (none :: xs).take xs.length

/-- The `daily_range = rolling_high - rolling_low` column over the days kept
by the daily resample: 252-day rolling max/min with a 20-day minimum window,
both shifted by one row, subtracted cell-wise (NaN propagates). -/
def dailyRangeTable (bars : List Bar) : List (Option ℚ) :=
  List.zipWith
    (fun rh rl =>
      match rh, rl with
      | some h, some l => some (h - l)
      | _, _ => none)
    (shiftF (rollingMax 252 20 ((bucketsPresent 1440 bars).map (dailyHigh bars))))
    (shiftF (rollingMin 252 20 ((bucketsPresent 1440 bars).map (dailyLow bars))))

/-- `daily_range.reindex(ohlcv.index, method='ffill')` evaluated at
timestamp `t`: the cell of the last day whose start is ≤ `t` (NaN when no
day starts at or before `t`, or when that cell itself is NaN). -/
def annualRangeAt (bars : List Bar) (t : Nat) : Option ℚ :=
  match (((bucketsPresent 1440 bars).zip (dailyRangeTable bars)).filter
      (fun p => decide (p.1 * 1440 ≤ t))).getLast? with
  | some p => p.2
  | none => none

/-- The daily high/low pairs of the days strictly before `d0`, in day
order: everything the shifted rolling window may see for day `d0`. -/
def prevDailyData (bars : List Bar) (d0 : Nat) : List (ℚ × ℚ) :=
  ((bucketsPresent 1440 bars).filter (fun d => decide (d < d0))).map
    (fun d => (dailyHigh bars d, dailyLow bars d))

/-- The shifted rolling range of a day expressed as a function of the
strictly earlier days' data alone (used to characterise `annualRangeAt`). -/
def annualRangeCore (prev : List (ℚ × ℚ)) : Option ℚ :=
  if prev.length = 0 then none
  else
    let hwin := (prev.map Prod.fst).drop (prev.length - 252)
    let lwin := (prev.map Prod.snd).drop (prev.length - 252)
    if 20 ≤ hwin.length then
      match hwin.max?, lwin.min? with
      | some h, some l => some (h - l)
      | _, _ => none
    else none

/-! Supporting lemmas for claim C1. -/

lemma length_rollingMax (w m : Nat) (xs : List ℚ) :
    (rollingMax w m xs).length = xs.length := by
  simp [rollingMax]

lemma length_rollingMin (w m : Nat) (xs : List ℚ) :
    (rollingMin w m xs).length = xs.length := by
  simp [rollingMin]

lemma length_shiftF (xs : List (Option ℚ)) : (shiftF xs).length = xs.length := by
  simp only [shiftF, List.length_take, List.length_cons]
  omega

lemma length_dailyRangeTable (bars : List Bar) :
    (dailyRangeTable bars).length = (bucketsPresent 1440 bars).length := by
  simp [dailyRangeTable, length_shiftF, length_rollingMax, length_rollingMin]

lemma rollingMax_getElem (w m : Nat) (xs : List ℚ) (i : Nat) (h : i < xs.length) :
    (rollingMax w m xs)[i]? = some
      (if m ≤ ((xs.take (i + 1)).drop (i + 1 - w)).length
       then ((xs.take (i + 1)).drop (i + 1 - w)).max? else none) := by
  simp [rollingMax, List.getElem?_map, List.getElem?_range h]

lemma rollingMin_getElem (w m : Nat) (xs : List ℚ) (i : Nat) (h : i < xs.length) :
    (rollingMin w m xs)[i]? = some
      (if m ≤ ((xs.take (i + 1)).drop (i + 1 - w)).length
       then ((xs.take (i + 1)).drop (i + 1 - w)).min? else none) := by
  simp [rollingMin, List.getElem?_map, List.getElem?_range h]

lemma shiftF_getElem (xs : List (Option ℚ)) (i : Nat) (h : i < xs.length) :
    (shiftF xs)[i]? = (none :: xs)[i]? := by
  simp [shiftF, List.getElem?_take, h]

/-- Cell `i` of the daily-range table is a function of the daily data of
the first `i` days alone — the shift excludes day `i` itself. -/
lemma dailyRangeTable_getElem (bars : List Bar) (i : Nat)
    (hi : i < (bucketsPresent 1440 bars).length) :
    (dailyRangeTable bars)[i]? = some (annualRangeCore
      (((bucketsPresent 1440 bars).take i).map
        (fun d => (dailyHigh bars d, dailyLow bars d)))) := by
  have hhl : ((bucketsPresent 1440 bars).map (dailyHigh bars)).length =
      (bucketsPresent 1440 bars).length := List.length_map _ _
  have hll : ((bucketsPresent 1440 bars).map (dailyLow bars)).length =
      (bucketsPresent 1440 bars).length := List.length_map _ _
  rw [dailyRangeTable, List.getElem?_zipWith',
    shiftF_getElem _ i (by rw [length_rollingMax, hhl]; exact hi),
    shiftF_getElem _ i (by rw [length_rollingMin, hll]; exact hi)]
  cases i with
  | zero =>
    simp [annualRangeCore]
  | succ j =>
    rw [List.getElem?_cons_succ, List.getElem?_cons_succ,
      rollingMax_getElem 252 20 _ j (by omega),
      rollingMin_getElem 252 20 _ j (by omega)]
    simp only [Option.map_some', Option.bind_some]
    -- identify the two windows with the windows of `annualRangeCore`
    have hprevfst :
        ((((bucketsPresent 1440 bars).take (j + 1)).map
            (fun d => (dailyHigh bars d, dailyLow bars d))).map Prod.fst) =
          (((bucketsPresent 1440 bars).map (dailyHigh bars)).take (j + 1)) := by
      rw [List.map_map, ← List.map_take]
      rfl
    have hprevsnd :
        ((((bucketsPresent 1440 bars).take (j + 1)).map
            (fun d => (dailyHigh bars d, dailyLow bars d))).map Prod.snd) =
          (((bucketsPresent 1440 bars).map (dailyLow bars)).take (j + 1)) := by
      rw [List.map_map, ← List.map_take]
      rfl
    have hprevlen :
        ((((bucketsPresent 1440 bars).take (j + 1)).map
            (fun d => (dailyHigh bars d, dailyLow bars d))).length) = j + 1 := by
      rw [List.length_map, List.length_take]
      omega
    have hwinlen :
        ((((bucketsPresent 1440 bars).map (dailyHigh bars)).take (j + 1)).drop
            (j + 1 - 252)).length =
          ((((bucketsPresent 1440 bars).map (dailyLow bars)).take (j + 1)).drop
            (j + 1 - 252)).length := by
      rw [List.length_drop, List.length_drop, List.length_take, List.length_take,
        hhl, hll]
    rw [annualRangeCore, hprevlen, hprevfst, hprevsnd,
      if_neg (Nat.succ_ne_zero j), ← hwinlen]
    by_cases hc : 20 ≤
        ((((bucketsPresent 1440 bars).map (dailyHigh bars)).take (j + 1)).drop
          (j + 1 - 252)).length
    · simp only [if_pos hc, Option.some_bind]
    · simp only [if_neg hc, Option.some_bind]

/-- The forward-fill lookup lands on row `d0` of the zipped table: the rows
before it are exactly the strictly earlier days, the rows after it fail the
`≤` test, so the filtered list ends at `(d0, table cell of d0)`. -/
lemma zip_filter_ffill (days : List Nat) (table : List (Option ℚ))
    (hlen : table.length = days.length)
    (hs : days.Sorted (· < ·)) (d0 : Nat) (hmem : d0 ∈ days)
    (p : Nat → Bool) (hmono : ∀ k, p k = decide (k ≤ d0)) :
    ∃ v, table[(days.filter (fun d => decide (d < d0))).length]? = some v ∧
      days.take (days.filter (fun d => decide (d < d0))).length =
        days.filter (fun d => decide (d < d0)) ∧
      ((days.zip table).filter (fun q => p q.1)).getLast? = some (d0, v) := by
  obtain ⟨A, B, rfl⟩ := List.append_of_mem hmem
  have hs' : List.Pairwise (· < ·) (A ++ d0 :: B) := hs
  rw [List.pairwise_append] at hs'
  obtain ⟨hA, hdB, hcross⟩ := hs'
  rw [List.pairwise_cons] at hdB
  have hAfilt : (A ++ d0 :: B).filter (fun d => decide (d < d0)) = A := by
    rw [List.filter_append]
    have h1 : A.filter (fun d => decide (d < d0)) = A :=
      List.filter_eq_self.mpr
        (fun a ha => decide_eq_true (hcross a ha d0 (List.mem_cons_self d0 B)))
    have h2 : (d0 :: B).filter (fun d => decide (d < d0)) = [] := by
      rw [List.filter_eq_nil_iff]
      intro b hb
      simp only [decide_eq_true_eq]
      rcases List.mem_cons.mp hb with rfl | hbB
      · exact lt_irrefl b
      · exact not_lt.mpr (le_of_lt (hdB.1 b hbB))
    rw [h1, h2, List.append_nil]
  rw [hAfilt]
  have hdayslen : (A ++ d0 :: B).length = A.length + 1 + B.length := by
    simp [List.length_append]
    omega
  have hAlen : A.length < table.length := by
    rw [hlen, hdayslen]
    omega
  obtain ⟨v, TB, hdrop⟩ : ∃ v TB, table.drop A.length = v :: TB := by
    apply List.exists_cons_of_ne_nil
    rw [← List.length_pos, List.length_drop]
    omega
  have hv : table[A.length]? = some v := by
    have hd := List.getElem?_drop table A.length 0
    rw [hdrop] at hd
    simpa using hd.symm
  have htable : table = table.take A.length ++ v :: TB := by
    conv_lhs => rw [← List.take_append_drop A.length table]
    rw [hdrop]
  have hTAlen : (table.take A.length).length = A.length := by
    rw [List.length_take]
    omega
  refine ⟨v, hv, List.take_left' rfl, ?_⟩
  conv_lhs => rw [htable]
  rw [List.zip_append hTAlen.symm, List.zip_cons_cons, List.filter_append]
  have hconsf : List.filter (fun q : Nat × Option ℚ => p q.1) ((d0, v) :: B.zip TB) =
      (d0, v) :: List.filter (fun q => p q.1) (B.zip TB) := by
    rw [List.filter_cons_of_pos]
    simp [hmono]
  rw [hconsf]
  have hBfilt : ((B.zip TB).filter (fun q => p q.1)) = [] := by
    rw [List.filter_eq_nil_iff]
    rintro ⟨b, w⟩ hbw
    have hbB : b ∈ B := (List.of_mem_zip hbw).1
    simp only [hmono, decide_eq_true_eq]
    exact not_le.mpr (hdB.1 b hbB)
  rw [hBfilt]
  exact List.getLast?_concat _

/-- `annualRangeAt` at a timestamp whose calendar day has data equals the
core function of the strictly earlier days' data: the value at `t` sees
nothing from day `dayOf t` or later. -/
lemma annualRangeAt_eq_core (bars : List Bar) (t : Nat)
    (hmem : dayOf t ∈ bucketsPresent 1440 bars) :
    annualRangeAt bars t = annualRangeCore (prevDailyData bars (dayOf t)) := by
  obtain ⟨v, hv, htake, hlast⟩ := zip_filter_ffill (bucketsPresent 1440 bars)
    (dailyRangeTable bars) (length_dailyRangeTable bars)
    (bucketsPresent_sorted 1440 bars) (dayOf t) hmem
    (fun k => decide (k * 1440 ≤ t))
    (fun k => decide_eq_decide.mpr (Nat.le_div_iff_mul_le (by norm_num)).symm)
  rw [annualRangeAt, hlast]
  -- v is the table cell at the row of `dayOf t`: identify it with the core
  have hflen : ((bucketsPresent 1440 bars).filter
      (fun d => decide (d < dayOf t))).length < (bucketsPresent 1440 bars).length := by
    have hle := (List.filter_sublist (l := bucketsPresent 1440 bars)
      (p := fun d => decide (d < dayOf t))).length_le
    rcases lt_or_eq_of_le hle with h | h
    · exact h
    · exfalso
      have heq := (List.filter_sublist (l := bucketsPresent 1440 bars)
        (p := fun d => decide (d < dayOf t))).eq_of_length h
      have : dayOf t ∈ (bucketsPresent 1440 bars).filter
          (fun d => decide (d < dayOf t)) := heq.symm ▸ hmem
      have := (List.mem_filter.mp this).2
      simp at this
  have hcell := dailyRangeTable_getElem bars _ hflen
  rw [hv, htake, Option.some_inj] at hcell
  rw [hcell, prevDailyData]

/-- The rows of any day strictly before `d0` are determined by the bars
with timestamps before the start of day `d0`. -/
lemma bucketBars_lt_eq (bars1 bars2 : List Bar) (d0 d : Nat) (hd : d < d0)
    (hfilt : bars1.filter (fun b => decide (b.ts < d0 * 1440)) =
             bars2.filter (fun b => decide (b.ts < d0 * 1440))) :
    bucketBars 1440 bars1 d = bucketBars 1440 bars2 d := by
  have key : ∀ bars : List Bar, bucketBars 1440 bars d =
      (bars.filter (fun b => decide (b.ts < d0 * 1440))).filter
        (fun b => decide (htfBucket 1440 b.ts = d)) := by
    intro bars
    rw [List.filter_filter, bucketBars]
    apply List.filter_congr
    intro b _
    by_cases hb : htfBucket 1440 b.ts = d
    · have hlt : b.ts < d0 * 1440 := by
        have : b.ts / 1440 < d0 := by
          rw [htfBucket] at hb
          omega
        exact (Nat.div_lt_iff_lt_mul (by norm_num)).mp this
      simp [hb, hlt]
    · simp [hb]
  rw [key bars1, key bars2, hfilt]

/-- The sorted day index restricted to days before `d0` is determined by
the bars with timestamps before the start of day `d0`. -/
lemma daysFilter_lt_eq (bars1 bars2 : List Bar) (d0 : Nat)
    (hfilt : bars1.filter (fun b => decide (b.ts < d0 * 1440)) =
             bars2.filter (fun b => decide (b.ts < d0 * 1440))) :
    (bucketsPresent 1440 bars1).filter (fun d => decide (d < d0)) =
    (bucketsPresent 1440 bars2).filter (fun d => decide (d < d0)) := by
  have hsorted : ∀ bars : List Bar,
      ((bucketsPresent 1440 bars).filter (fun d => decide (d < d0))).Sorted (· ≤ ·) :=
    fun bars => List.Pairwise.sublist (List.filter_sublist _)
      ((bucketsPresent_sorted 1440 bars).imp le_of_lt)
  have hnodup : ∀ bars : List Bar,
      ((bucketsPresent 1440 bars).filter (fun d => decide (d < d0))).Nodup :=
    fun bars => (bucketsPresent_nodup 1440 bars).filter _
  have hmemiff : ∀ d : Nat,
      d ∈ (bucketsPresent 1440 bars1).filter (fun d => decide (d < d0)) ↔
      d ∈ (bucketsPresent 1440 bars2).filter (fun d => decide (d < d0)) := by
    intro d
    rw [List.mem_filter, List.mem_filter, mem_bucketsPresent, mem_bucketsPresent]
    constructor
    · rintro ⟨⟨b, hb, hbd⟩, hdec⟩
      have hd : d < d0 := by simpa using hdec
      have hbmem : b ∈ bucketBars 1440 bars2 d := by
        rw [← bucketBars_lt_eq bars1 bars2 d0 d hd hfilt]
        exact List.mem_filter.mpr ⟨hb, decide_eq_true hbd⟩
      obtain ⟨hb2, hbd2⟩ := List.mem_filter.mp hbmem
      exact ⟨⟨b, hb2, by simpa using hbd2⟩, hdec⟩
    · rintro ⟨⟨b, hb, hbd⟩, hdec⟩
      have hd : d < d0 := by simpa using hdec
      have hbmem : b ∈ bucketBars 1440 bars1 d := by
        rw [bucketBars_lt_eq bars1 bars2 d0 d hd hfilt]
        exact List.mem_filter.mpr ⟨hb, decide_eq_true hbd⟩
      obtain ⟨hb1, hbd1⟩ := List.mem_filter.mp hbmem
      exact ⟨⟨b, hb1, by simpa using hbd1⟩, hdec⟩
  exact List.eq_of_perm_of_sorted
    ((List.perm_ext_iff_of_nodup (hnodup bars1) (hnodup bars2)).mpr hmemiff)
    (hsorted bars1) (hsorted bars2)

/-- All daily data before day `d0` is determined by the bars with
timestamps before the start of day `d0`. -/
lemma prevDailyData_congr (bars1 bars2 : List Bar) (d0 : Nat)
    (hfilt : bars1.filter (fun b => decide (b.ts < d0 * 1440)) =
             bars2.filter (fun b => decide (b.ts < d0 * 1440))) :
    prevDailyData bars1 d0 = prevDailyData bars2 d0 := by
  rw [prevDailyData, prevDailyData, daysFilter_lt_eq bars1 bars2 d0 hfilt]
  apply List.map_congr_left
  intro d hd
  have hdlt : d < d0 := by
    have := (List.mem_filter.mp hd).2
    simpa using this
  rw [dailyHigh, dailyHigh, dailyLow, dailyLow,
    bucketBars_lt_eq bars1 bars2 d0 d hdlt hfilt]

/-! ### Theorem: claim C1 -/

/-- C1 (no-lookahead): the rolling annual range looked up at a timestamp
`t` depends only on the bars strictly before the start of `t`'s calendar
day — two histories that agree on those bars (and both have data on `t`'s
day, so the forward-fill lands on that day's row) yield the same range at
`t`, whatever bars at or after start-of-day(`t`) either contains. -/
theorem annual_range_no_lookahead (bars1 bars2 : List Bar) (t : Nat)
    (hfilt : bars1.filter (fun b => decide (b.ts < startOfDay t)) =
             bars2.filter (fun b => decide (b.ts < startOfDay t)))
    (h1 : dayOf t ∈ bucketsPresent 1440 bars1)
    (h2 : dayOf t ∈ bucketsPresent 1440 bars2) :
    annualRangeAt bars1 t = annualRangeAt bars2 t := by
  rw [annualRangeAt_eq_core bars1 t h1, annualRangeAt_eq_core bars2 t h2,
    prevDailyData_congr bars1 bars2 (dayOf t) hfilt]

/-- C1 witness: the theorem applied to two concrete histories that share
day 0 and differ (an extreme spike, an extra bar) on day 1 only; the range
looked up within day 1 is identical. -/
theorem annual_range_no_lookahead_witness :
    annualRangeAt [⟨0, 1, 2, 1, 1, 1⟩, ⟨1440, 1, 2, 1, 1, 1⟩] 1440 =
    annualRangeAt [⟨0, 1, 2, 1, 1, 1⟩, ⟨1440, 1, 999, 1, 500, 1⟩,
                   ⟨1441, 1, 3, 1, 2, 1⟩] 1440 :=
  annual_range_no_lookahead
    [⟨0, 1, 2, 1, 1, 1⟩, ⟨1440, 1, 2, 1, 1, 1⟩]
    [⟨0, 1, 2, 1, 1, 1⟩, ⟨1440, 1, 999, 1, 500, 1⟩, ⟨1441, 1, 3, 1, 2, 1⟩]
    1440 (by decide) (by decide) (by decide)

end Backtest
